/-
Verification of the MicroNet_imagenet architecture definition
(src/Models/MicroNet_imagenet.py) against its natural-language
specification.

The Python code is shallowly embedded: Python ints become ℤ, Python
floats/rationals become ℚ, Python `int(...)` truncation becomes `pyInt`,
tensors become an abstract type `T` with pointwise `+` and `*`, and the
external convolution / batch-norm / activation kernels become abstract
functions `T → T` supplied as parameters.  Fallible attribute access
(`self.conv2` when it was never created) is modelled with `Option`.
-/
import Mathlib

set_option autoImplicit false

/-- Python `int(q)`: truncation toward zero (floor for nonnegative values,
negated floor of the negation otherwise). -/
def pyInt (q : ℚ) : ℤ := if 0 ≤ q then ⌊q⌋ else -⌊-q⌋

/-- The clipped-ReLU primitive `nn.ReLU6` used by `HSwish`: clip(x, 0, 6). -/
def relu6 (x : ℚ) : ℚ := min (max x 0) 6

/-- `HSwish.forward` (MicroNet_imagenet.py line 30):
`x * relu6(x + 3.0) / 6.0`, elementwise; the module holds no parameters,
so the embedding is a pure function. -/
def hswish (x : ℚ) : ℚ := x * relu6 (x + 3) / 6

/-- One row of `MicroNet_imagenet.cfg`:
`(expansion, out_planes, num_blocks, stride)`. -/
structure Stage where
  expansion : ℚ
  out_planes : ℤ
  num_blocks : ℤ
  stride : ℤ
  deriving DecidableEq

/-- The literal `self.cfg` table (MicroNet_imagenet.py lines 110-120). -/
def defaultCfg : List Stage :=
  [⟨1, 16, 2, 1⟩,
   ⟨3, 24, 1, 2⟩,
   ⟨3, 24, 2, 1⟩,
   ⟨3, 40, 1, 2⟩,
   ⟨3, 40, 2, 1⟩,
   ⟨3, 80, 1, 2⟩,
   ⟨3, 80, 2, 1⟩,
   ⟨3, 96, 2, 1⟩,
   ⟨3, 192, 1, 2⟩,
   ⟨3, 192, 3, 1⟩,
   ⟨3, 320, 1, 1⟩]

/-- Stride of the stem convolution `self.conv1`
(MicroNet_imagenet.py line 133: `stride=2`). -/
def conv1Stride : ℕ := 2

/-- `MicroNet_imagenet.change_cfg` (lines 191-195): every stage's
`out_planes` becomes `int(out_planes * wide_factor)`; `num_blocks`
becomes `int(num_blocks * depth_factor)` only when the stage's stride
is 1. -/
def changeCfg (wide_factor depth_factor : ℚ) (cfg : List Stage) : List Stage :=
  cfg.map (fun st =>
    { st with
      out_planes := pyInt ((st.out_planes : ℚ) * wide_factor)
      num_blocks :=
        if st.stride = 1 then pyInt ((st.num_blocks : ℚ) * depth_factor)
        else st.num_blocks })

/-- `planes = int(expansion * in_planes)` (MicroBlock.__init__, line 41). -/
def microBlockPlanes (expansion : ℚ) (in_planes : ℤ) : ℤ :=
  pyInt (expansion * (in_planes : ℚ))

/-- Depthwise-convolution hyperparameters `(kernel_size, padding)` chosen by
`MicroBlock.__init__` (lines 44-47): created only when the stride is
exactly 1 (3x3, padding 1) or exactly 2 (5x5, padding 2); for any other
stride, `self.conv2` is never assigned, modelled by `none`. -/
def conv2Spec (stride : ℤ) : Option (ℕ × ℕ) :=
  if stride = 1 then some (3, 1)
  else if stride = 2 then some (5, 2)
  else none

/-- A constructed `MicroBlock`: its scalar attributes plus its sub-layers,
each an abstract function on the tensor type `T` (the external runtime
supplies the actual kernels).  `conv2` is optional because the Python
constructor skips the assignment for strides outside {1, 2}. -/
structure MicroBlock (T : Type) where
  planes : ℤ
  stride : ℤ
  add_se : Bool
  conv1 : T → T
  bn1 : T → T
  act1 : T → T
  conv2 : Option (T → T)
  bn2 : T → T
  act2 : T → T
  conv3 : T → T
  bn3 : T → T
  avg_se : T → T
  fc1 : T → T
  fc2 : T → T
  sigmoid : T → T
  act_se : T → T
  shortcut : T → T

/-- `MicroBlock.__init__` (lines 37-78).  The concrete layer kernels
(`conv1`, `bn1`, activations, the depthwise kernel builder `dwconv`, the
learned shortcut projection `shortcutProj`, and the SE sub-layers) are
parameters; the constructor records the structural choices made by the
Python code: `planes = int(expansion * in_planes)`, the stride-dependent
depthwise convolution, and the shortcut, which is the learned projection
exactly when `stride == 1` and `in_planes != out_planes`, and the identity
(`nn.Sequential()`) otherwise. -/
def mkMicroBlock {T : Type} (in_planes out_planes : ℤ) (expansion : ℚ)
    (stride : ℤ) (add_se : Bool)
    (conv1 bn1 act1 bn2 act2 conv3 bn3 avg_se fc1 fc2 sigmoid act_se : T → T)
    (dwconv : ℕ × ℕ → T → T) (shortcutProj : T → T) : MicroBlock T :=
  { planes := microBlockPlanes expansion in_planes
    stride := stride
    add_se := add_se
    conv1 := conv1
    bn1 := bn1
    act1 := act1
    conv2 := (conv2Spec stride).map dwconv
    bn2 := bn2
    act2 := act2
    conv3 := conv3
    bn3 := bn3
    avg_se := avg_se
    fc1 := fc1
    fc2 := fc2
    sigmoid := sigmoid
    act_se := act_se
    shortcut :=
      if stride = 1 ∧ in_planes ≠ out_planes then shortcutProj
      else fun t => t }

/-- `MicroBlock.forward` (lines 82-98), embedded line by line.  The Python
conditional expression `out = out * w + self.shortcut(x) if self.stride==1
else out` binds as `out = (out * w + self.shortcut(x)) if self.stride==1
else out`, so in the SE branch with stride != 1 the gate `w` is computed
and then discarded.  Accessing the absent `conv2` yields `none`. -/
def MicroBlock.forward {T : Type} [Mul T] [Add T] (b : MicroBlock T)
    (x : T) : Option T :=
  match b.conv2 with
  | none => none
  | some c2 =>
    let out1 := b.act1 (b.bn1 (b.conv1 x))
    let out2 := c2 out1
    let out3 := b.act2 (b.bn2 out2)
    let out4 := b.bn3 (b.conv3 out3)
    if b.add_se then
      let w1 := b.avg_se out4
      let w2 := b.act_se (b.fc1 w1)
      let w3 := b.sigmoid (b.fc2 w2)
      some (if b.stride = 1 then out4 * w3 + b.shortcut x else out4)
    else
      some (if b.stride = 1 then out4 + b.shortcut x else out4)

/-- Modelled from the spec: the forward pass as the specification words it
(section 4.2 steps 4-5): when SE is enabled the projected output is always
multiplied by the sigmoid gate weights, and the shortcut is then added only
when `stride == 1`.  Used to compare the code's `MicroBlock.forward`
against the specified behaviour. -/
def MicroBlock.forwardSpec {T : Type} [Mul T] [Add T] (b : MicroBlock T)
    (x : T) : Option T :=
  match b.conv2 with
  | none => none
  | some c2 =>
    let out1 := b.act1 (b.bn1 (b.conv1 x))
    let out2 := c2 out1
    let out3 := b.act2 (b.bn2 out2)
    let out4 := b.bn3 (b.conv3 out3)
    if b.add_se then
      let w1 := b.avg_se out4
      let w2 := b.act_se (b.fc1 w1)
      let w3 := b.sigmoid (b.fc2 w2)
      some (if b.stride = 1 then out4 * w3 + b.shortcut x else out4 * w3)
    else
      some (if b.stride = 1 then out4 + b.shortcut x else out4)

/-- The concrete stride-2 SE-enabled MicroBlock used to exhibit the dropped
SE gate: tensors are single rationals, every external kernel is the
identity, and the sigmoid gate returns 1/2. -/
def mbSeStride2 : MicroBlock ℚ :=
  mkMicroBlock 8 8 3 2 true id id id id id id id id id id
    (fun _ => (1 : ℚ) / 2) id (fun _ => id) id

/-- Structural record of one MicroBlock produced by
`MicroNet_imagenet._make_layers`: the constructor arguments that vary per
block. -/
structure BlockSpec where
  in_planes : ℤ
  out_planes : ℤ
  expansion : ℚ
  stride : ℤ
  deriving DecidableEq

/-- `strides = [stride] + [1]*(num_blocks-1)` (line 185); Python list
repetition with a negative count yields the empty list, matched by
`Int.toNat`. -/
def stageStrides (num_blocks stride : ℤ) : List ℤ :=
  stride :: List.replicate (num_blocks - 1).toNat 1

/-- The inner loop of `_make_layers` (lines 186-188): one block per entry
of the strides list, with `in_planes` updated to `out_planes` after each
block. -/
def buildBlocks (expansion : ℚ) (out_planes : ℤ) :
    ℤ → List ℤ → List BlockSpec
  | _, [] => []
  | p, s :: rest =>
      ⟨p, out_planes, expansion, s⟩ :: buildBlocks expansion out_planes out_planes rest

/-- `MicroNet_imagenet._make_layers` (lines 182-189): iterate the config
stages, threading the running `in_planes` (after a stage's inner loop the
running value is that stage's `out_planes`, since the strides list is
never empty). -/
def makeLayers : ℤ → List Stage → List BlockSpec
  | _, [] => []
  | p, st :: rest =>
      buildBlocks st.expansion st.out_planes p
          (stageStrides st.num_blocks st.stride)
        ++ makeLayers st.out_planes rest

/-- Whether `pat` occurs at the head of `s`, character by character. -/
def headMatches : List Char → List Char → Bool
  | [], _ => true
  | _ :: _, [] => false
  | a :: as, b :: bs => a = b && headMatches as bs

/-- Python's `pat in s` on strings: `pat` occurs contiguously in `s`. -/
def containsChars (pat : List Char) : List Char → Bool
  | [] => pat.isEmpty
  | b :: bs => headMatches pat (b :: bs) || containsChars pat bs

/-- A submodule name, as Python's `named_children` yields it, embedded as
its character list (Python's `in` on strings is the infix test). -/
def nameLayer : List Char := ['l', 'a', 'y', 'e', 'r']

/-- The pattern `conv1` matched by `reset_custom_parameters`. -/
def nameConv1 : List Char := ['c', 'o', 'n', 'v', '1']

/-- The pattern `conv2` matched by `reset_custom_parameters`. -/
def nameConv2 : List Char := ['c', 'o', 'n', 'v', '2']

/-- The pattern `conv3` matched by `reset_custom_parameters`. -/
def nameConv3 : List Char := ['c', 'o', 'n', 'v', '3']

/-- The names of the direct children of a constructed `MicroNet_imagenet`,
in registration order: `criterion` (assigned by `set_config` at line 125),
then `conv1`, `bn1`, `layers`, `last_conv`, `avg`, `dropout`, `linear`,
`stem_act` (lines 133-145).  `named_children()` yields exactly these; the
convolutions inside each MicroBlock are grandchildren and are not
iterated. -/
def microNetChildNames : List (List Char) :=
  [['c', 'r', 'i', 't', 'e', 'r', 'i', 'o', 'n'],
   ['c', 'o', 'n', 'v', '1'],
   ['b', 'n', '1'],
   ['l', 'a', 'y', 'e', 'r', 's'],
   ['l', 'a', 's', 't', '_', 'c', 'o', 'n', 'v'],
   ['a', 'v', 'g'],
   ['d', 'r', 'o', 'p', 'o', 'u', 't'],
   ['l', 'i', 'n', 'e', 'a', 'r'],
   ['s', 't', 'e', 'm', '_', 'a', 'c', 't']]

/-- `MicroNet_imagenet.reset_custom_parameters` (lines 169-180), modelled
as the list of (module name, standard-deviation multiplier) updates the
pass performs on the iterated child names: a child is re-initialized with
multiplier 0.73 / 9.37 / 0.55 when its name contains `layer` and also
contains `conv1` / `conv2` / `conv3` respectively. -/
def customUpdates (names : List (List Char)) : List (List Char × ℚ) :=
  names.filterMap (fun name =>
    if containsChars nameLayer name then
      if containsChars nameConv1 name then some (name, 73 / 100)
      else if containsChars nameConv2 name then some (name, 937 / 100)
      else if containsChars nameConv3 name then some (name, 55 / 100)
      else none
    else none)

/-- `pyInt` agrees with the floor on nonnegative rationals. -/
theorem pyInt_of_nonneg {q : ℚ} (h : 0 ≤ q) : pyInt q = ⌊q⌋ := by
  unfold pyInt
  exact if_pos h

/-- `pyInt` of a rational at least 1 is at least 1. -/
theorem one_le_pyInt {q : ℚ} (h : 1 ≤ q) : 1 ≤ pyInt q := by
  rw [pyInt_of_nonneg (le_trans zero_le_one h)]
  exact Int.le_floor.mpr (by exact_mod_cast h)

/-- The inner `_make_layers` loop over a run of stride-1 entries produces a
run of identical stride-1 blocks. -/
theorem buildBlocks_replicate (e : ℚ) (c : ℤ) :
    ∀ k : ℕ, buildBlocks e c c (List.replicate k 1)
      = List.replicate k ⟨c, c, e, 1⟩
  | 0 => rfl
  | k + 1 => by
      simp only [List.replicate_succ, buildBlocks]
      rw [buildBlocks_replicate e c k]

/-- The forward pass of a MicroBlock is defined exactly when its depthwise
convolution attribute exists. -/
theorem forward_isSome_eq {T : Type} [Mul T] [Add T] (b : MicroBlock T)
    (x : T) : (b.forward x).isSome = b.conv2.isSome := by
  unfold MicroBlock.forward
  cases hc : b.conv2 with
  | none => rfl
  | some c2 =>
    show (if b.add_se then _ else _ : Option T).isSome = _
    split <;> rfl

/-- C1: for the stride-2 SE-enabled MicroBlock `mbSeStride2` (identity
kernels, sigmoid gate 1/2, input 1), the code's forward pass returns the
projected branch un-gated (value 1), whereas the specified behaviour
(projected output multiplied by the sigmoid gate weights) returns 1/2: the
Python conditional expression on line 94 discards the SE gate whenever
`stride != 1`. -/
theorem se_stride2_gate_discarded :
    mbSeStride2.forward 1 = some 1 ∧
    mbSeStride2.forwardSpec 1 = some (1 / 2) ∧
    mbSeStride2.forward 1 ≠ mbSeStride2.forwardSpec 1 := by
  refine ⟨rfl, ?_, ?_⟩
  · show some ((1 : ℚ) * (1 / 2)) = some (1 / 2)
    norm_num
  · show some (1 : ℚ) ≠ some ((1 : ℚ) * (1 / 2))
    norm_num

/-- C2: `reset_custom_parameters` iterates only the network's direct
children; applied to their actual names, the name-pattern match selects no
module at all, so the custom override pass re-initializes no MicroBlock
convolution weights. -/
theorem reset_custom_noop : customUpdates microNetChildNames = [] := by
  decide

/-- C3 counterexample: the configuration table contains four stride-2
stages, not five, and the stem stride times 2 to the number of stride-2
stages is not 64. -/
theorem stride2_count_ne_five :
    (defaultCfg.filter (fun st => st.stride = 2)).length ≠ 5 ∧
    conv1Stride * 2 ^ (defaultCfg.filter (fun st => st.stride = 2)).length
      ≠ 64 := by
  decide

/-- C3 amended: the configuration table contains exactly four internal
stride-2 stages, which together with the stride-2 stem give a total
spatial downsampling factor of 32. -/
theorem stride2_count_and_downsample :
    (defaultCfg.filter (fun st => st.stride = 2)).length = 4 ∧
    conv1Stride * 2 ^ (defaultCfg.filter (fun st => st.stride = 2)).length
      = 32 := by
  decide

/-- C4 counterexample: with the positive rational factors
`wide_factor = 1/100`, `depth_factor = 1`, a single run of `change_cfg`
leaves the first stage with out-channel count 0 < 1. -/
theorem change_cfg_zero_channel_stage :
    (⟨1, 0, 2, 1⟩ : Stage) ∈ changeCfg (1 / 100) 1 defaultCfg ∧
    ¬ (1 ≤ (⟨1, 0, 2, 1⟩ : Stage).out_planes) := by
  constructor
  · have e : changeCfg (1 / 100) 1 defaultCfg
        = [⟨1, 0, 2, 1⟩, ⟨3, 0, 1, 2⟩, ⟨3, 0, 2, 1⟩, ⟨3, 0, 1, 2⟩,
           ⟨3, 0, 2, 1⟩, ⟨3, 0, 1, 2⟩, ⟨3, 0, 2, 1⟩, ⟨3, 0, 2, 1⟩,
           ⟨3, 1, 1, 2⟩, ⟨3, 1, 3, 1⟩, ⟨3, 3, 1, 1⟩] := by
      simp [changeCfg, defaultCfg, pyInt]
      norm_num
    rw [e]
    exact List.mem_cons_self _ _
  · decide

/-- C4 amended: for every pair of rational factors that are at least 1, a
single run of `change_cfg` leaves every stage of the default configuration
with an integer out-channel count at least 1 and an integer block count at
least 1. -/
theorem change_cfg_ge_one (w d : ℚ) (hw : 1 ≤ w) (hd : 1 ≤ d) :
    ∀ st ∈ changeCfg w d defaultCfg,
      1 ≤ st.out_planes ∧ 1 ≤ st.num_blocks := by
  intro st hst
  rw [changeCfg, List.mem_map] at hst
  obtain ⟨st0, h0, rfl⟩ := hst
  have h1 := (by decide :
    ∀ s ∈ defaultCfg, (1:ℤ) ≤ s.out_planes ∧ (1:ℤ) ≤ s.num_blocks) st0 h0
  have hq1 : (1 : ℚ) ≤ (st0.out_planes : ℚ) := by exact_mod_cast h1.1
  have hq2 : (1 : ℚ) ≤ (st0.num_blocks : ℚ) := by exact_mod_cast h1.2
  constructor
  · apply one_le_pyInt
    nlinarith
  · dsimp only
    by_cases hs : st0.stride = 1
    · rw [if_pos hs]
      apply one_le_pyInt
      nlinarith
    · rw [if_neg hs]
      exact h1.2

/-- C4 witness: at factors (1, 1), the first rescaled stage keeps channel
count 16 and block count 2, both at least 1. -/
theorem change_cfg_ge_one_witness :
    1 ≤ (⟨1, 16, 2, 1⟩ : Stage).out_planes ∧
    1 ≤ (⟨1, 16, 2, 1⟩ : Stage).num_blocks := by
  have e : (⟨1, 16, 2, 1⟩ : Stage) ∈ changeCfg 1 1 defaultCfg := by
    have e1 : changeCfg 1 1 defaultCfg = defaultCfg := by
      simp [changeCfg, defaultCfg, pyInt]
    rw [e1]
    decide
  exact change_cfg_ge_one 1 1 le_rfl le_rfl ⟨1, 16, 2, 1⟩ e

/-- C5 counterexample: at `expansion = 8/5`, `in_channels = 1`, the code
computes `planes = int(8/5) = 1`, while rounding to the nearest integer
gives 2. -/
theorem planes_not_nearest :
    microBlockPlanes (8 / 5) 1 = 1 ∧
    round ((8 : ℚ) / 5 * ((1 : ℤ) : ℚ)) = 2 ∧ (1 : ℤ) ≠ 2 := by
  refine ⟨?_, ?_, by decide⟩
  · unfold microBlockPlanes
    rw [pyInt_of_nonneg (by norm_num)]
    norm_num
  · rw [round_eq]
    norm_num

/-- C5 amended: for every nonnegative expansion and nonnegative integer
in-channel count, the intermediate channel count equals the floor
(truncation toward zero) of `expansion * in_channels`, not the nearest
integer. -/
theorem planes_eq_floor (e : ℚ) (n : ℤ) (he : 0 ≤ e) (hn : 0 ≤ n) :
    microBlockPlanes e n = ⌊e * (n : ℚ)⌋ := by
  unfold microBlockPlanes
  exact pyInt_of_nonneg (mul_nonneg he (by exact_mod_cast hn))

/-- C5 witness: expansion 3 on 16 input channels gives 48 intermediate
channels. -/
theorem planes_eq_floor_witness : microBlockPlanes 3 16 = 48 := by
  have h := planes_eq_floor 3 16 (by norm_num) (by norm_num)
  rw [h]
  norm_num

/-- C6: for nonnegative factors and a configuration with nonnegative
channel and block counts, `change_cfg` floors every stage's out-channel
count times `wide_factor`, floors `num_blocks` times `depth_factor`
exactly for the stride-1 stages, and leaves every stride-2 stage's block
count unchanged. -/
theorem change_cfg_spec (w d : ℚ) (cfg : List Stage) (hw : 0 ≤ w)
    (hd : 0 ≤ d)
    (hpos : ∀ st ∈ cfg, (0:ℤ) ≤ st.out_planes ∧ (0:ℤ) ≤ st.num_blocks) :
    changeCfg w d cfg = cfg.map (fun st =>
      { st with
        out_planes := ⌊(st.out_planes : ℚ) * w⌋
        num_blocks :=
          if st.stride = 1 then ⌊(st.num_blocks : ℚ) * d⌋
          else st.num_blocks }) := by
  induction cfg with
  | nil => rfl
  | cons st rest ih =>
    have hst := hpos st (List.mem_cons_self st rest)
    have hrest := fun s hs => hpos s (List.mem_cons_of_mem st hs)
    have e1 : pyInt ((st.out_planes : ℚ) * w) = ⌊(st.out_planes : ℚ) * w⌋ :=
      pyInt_of_nonneg (mul_nonneg (by exact_mod_cast hst.1) hw)
    have e2 : (if st.stride = 1 then pyInt ((st.num_blocks : ℚ) * d)
          else st.num_blocks)
        = (if st.stride = 1 then ⌊(st.num_blocks : ℚ) * d⌋
          else st.num_blocks) := by
      by_cases hs : st.stride = 1
      · rw [if_pos hs, if_pos hs,
          pyInt_of_nonneg (mul_nonneg (by exact_mod_cast hst.2) hd)]
      · rw [if_neg hs, if_neg hs]
    have ih2 := ih hrest
    simp only [changeCfg, List.map_cons] at *
    rw [e1, e2, ih2]

/-- C6 witness: at factors (3/2, 2), the default configuration rescales to
the expected table: every channel count floored at 3/2 times the original,
every stride-1 block count doubled, every stride-2 block count
untouched. -/
theorem change_cfg_spec_witness :
    changeCfg (3 / 2) 2 defaultCfg
      = [⟨1, 24, 4, 1⟩, ⟨3, 36, 1, 2⟩, ⟨3, 36, 4, 1⟩, ⟨3, 60, 1, 2⟩,
         ⟨3, 60, 4, 1⟩, ⟨3, 120, 1, 2⟩, ⟨3, 120, 4, 1⟩, ⟨3, 144, 4, 1⟩,
         ⟨3, 288, 1, 2⟩, ⟨3, 288, 6, 1⟩, ⟨3, 480, 2, 1⟩] := by
  have h := change_cfg_spec (3 / 2) 2 defaultCfg (by norm_num) (by norm_num)
    (by decide)
  rw [h]
  simp [defaultCfg]
  norm_num

/-- C7: for every rational input, `hswish x = x * clip(x + 3, 0, 6) / 6`;
in particular `hswish x = x` whenever `3 ≤ x` and `hswish x = 0` whenever
`x ≤ -3`.  The embedding is a pure function: `HSwish` holds no learnable
state. -/
theorem hswish_contract (x : ℚ) :
    hswish x = x * min (max (x + 3) 0) 6 / 6 ∧
    (3 ≤ x → hswish x = x) ∧
    (x ≤ -3 → hswish x = 0) := by
  refine ⟨rfl, ?_, ?_⟩
  · intro h
    unfold hswish relu6
    rw [max_eq_left (by linarith), min_eq_right (by linarith)]
    ring
  · intro h
    unfold hswish relu6
    rw [max_eq_right (by linarith), min_eq_left (by norm_num)]
    ring

/-- C7 witness: `hswish 4 = 4` and `hswish (-5) = 0`. -/
theorem hswish_contract_witness : hswish 4 = 4 ∧ hswish (-5) = 0 :=
  ⟨(hswish_contract 4).2.1 (by norm_num),
   (hswish_contract (-5)).2.2 (by norm_num)⟩

/-- C8: a MicroBlock built with stride 1, equal in/out channel counts and
SE disabled outputs the projected branch (expand, depthwise 3x3,
project, with their normalizations and activations) plus the unmodified
input: the shortcut is the identity. -/
theorem identity_shortcut_forward {T : Type} [Mul T] [Add T]
    (in_planes out_planes : ℤ) (e : ℚ)
    (conv1 bn1 act1 bn2 act2 conv3 bn3 avg_se fc1 fc2 sigmoid act_se : T → T)
    (dwconv : ℕ × ℕ → T → T) (shortcutProj : T → T)
    (h : in_planes = out_planes) (x : T) :
    (mkMicroBlock in_planes out_planes e 1 false conv1 bn1 act1 bn2 act2
        conv3 bn3 avg_se fc1 fc2 sigmoid act_se dwconv shortcutProj).forward x
      = some (bn3 (conv3 (act2 (bn2 (dwconv (3, 1)
          (act1 (bn1 (conv1 x))))))) + x) := by
  subst h
  simp [mkMicroBlock, MicroBlock.forward, conv2Spec]

/-- C8 witness: with rational tensors, identity kernels, 16 in and out
channels and input 5, the block outputs 5 + 5 = 10. -/
theorem identity_shortcut_witness :
    (mkMicroBlock 16 16 3 1 false id id id id id id id id id id id id
        (fun _ => id) id).forward (5 : ℚ) = some 10 := by
  have h := identity_shortcut_forward 16 16 3 id id id id id id id id id id
    id id (fun _ => id) id rfl (5 : ℚ)
  rw [h]
  norm_num

/-- C9: expanding one stage entry `(e, c, n, s)` with `1 ≤ n` from running
in-channel count `p` yields exactly `n` consecutive blocks: the first with
in-channels `p` and the configured stride `s`, all subsequent ones with
stride 1 and in-channels `c` (the previous block's out-channels); the
remaining stages are then expanded from running in-channel count `c`. -/
theorem make_layers_stage_structure (p : ℤ) (e : ℚ) (c n s : ℤ)
    (rest : List Stage) (h : 1 ≤ n) :
    makeLayers p (⟨e, c, n, s⟩ :: rest)
        = (⟨p, c, e, s⟩ :: List.replicate (n - 1).toNat ⟨c, c, e, 1⟩)
          ++ makeLayers c rest
      ∧ (⟨p, c, e, s⟩ ::
          List.replicate (n - 1).toNat (⟨c, c, e, 1⟩ : BlockSpec)).length
        = n.toNat := by
  constructor
  · show buildBlocks e c p (stageStrides n s) ++ makeLayers c rest = _
    unfold stageStrides
    simp only [buildBlocks]
    rw [buildBlocks_replicate]
  · simp only [List.length_cons, List.length_replicate]
    omega

/-- C9 witness: the stage `(3, 24, 3, 2)` expanded from in-channel count
32 yields three blocks: `(32, 24, 3, 2)`, then twice `(24, 24, 3, 1)`. -/
theorem make_layers_witness :
    makeLayers 32 [⟨3, 24, 3, 2⟩]
      = [⟨32, 24, 3, 2⟩, ⟨24, 24, 3, 1⟩, ⟨24, 24, 3, 1⟩] := by
  have h := (make_layers_stage_structure 32 3 24 3 2 [] (by norm_num)).1
  rw [h]
  decide

/-- C10: the depthwise convolution is created exactly for strides 1 (3x3
kernel, padding 1) and 2 (5x5 kernel, padding 2); for every other stride
`conv2` is never created and the forward pass of the constructed block is
undefined (returns `none`), so `MicroBlock.forward` is total exactly on
strides 1 and 2. -/
theorem conv2_defined_iff {T : Type} [Mul T] [Add T] (in_p out_p : ℤ)
    (e : ℚ) (s : ℤ) (se : Bool)
    (conv1 bn1 act1 bn2 act2 conv3 bn3 avg_se fc1 fc2 sigmoid act_se : T → T)
    (dwconv : ℕ × ℕ → T → T) (proj : T → T) (x : T) :
    (s = 1 → conv2Spec s = some (3, 1)) ∧
    (s = 2 → conv2Spec s = some (5, 2)) ∧
    (¬(s = 1 ∨ s = 2) → conv2Spec s = none) ∧
    (((mkMicroBlock in_p out_p e s se conv1 bn1 act1 bn2 act2 conv3 bn3
        avg_se fc1 fc2 sigmoid act_se dwconv proj).forward x).isSome = true
      ↔ s = 1 ∨ s = 2) := by
  refine ⟨?_, ?_, ?_, ?_⟩
  · intro hs
    simp [conv2Spec, hs]
  · intro hs
    simp [conv2Spec, hs]
  · intro hs
    push_neg at hs
    simp [conv2Spec, hs.1, hs.2]
  · rw [forward_isSome_eq]
    show ((conv2Spec s).map dwconv).isSome = true ↔ s = 1 ∨ s = 2
    unfold conv2Spec
    split_ifs with ha hb
    · simp [ha]
    · simp [hb]
    · simp [ha, hb]

/-- C10 witness: at stride 1 the depthwise convolution spec is the 3x3
kernel with padding 1, and the forward pass of a concrete block over
rational tensors is defined. -/
theorem conv2_defined_witness :
    conv2Spec 1 = some (3, 1) ∧
    ((mkMicroBlock 16 16 3 1 false id id id id id id id id id id id id
        (fun _ => id) (id : ℚ → ℚ)).forward (0 : ℚ)).isSome = true := by
  have h := conv2_defined_iff 16 16 3 1 false id id id id id id id id id id
    id id (fun _ => id) (id : ℚ → ℚ) (0 : ℚ)
  exact ⟨h.1 rfl, h.2.2.2.mpr (Or.inl rfl)⟩
